import Mathlib

/-!
Verification of the session/token lifecycle manager and streaming protocol
of the lib-copilot repository. Definitions are shallow embeddings of
the TypeScript sources (`src/auth.ts`, `src/chatgpt-sender.ts` client part,
`src/chatgpt.ts`, `src/serve.ts`, the job-file module). Time is epoch
milliseconds as `Int`; JavaScript truthiness of strings and numbers is
modelled explicitly (`""` and `0` are falsy).
-/

namespace LibCopilot

/-- JavaScript truthiness of an optional string: `undefined`/`null` and the
empty string are falsy. -/
def strTruthy : Option String → Bool
  | none => false
  | some s => s ≠ ""

/-- JavaScript truthiness of an optional number: `undefined` and `0` are
falsy. -/
def intTruthy : Option Int → Bool
  | none => false
  | some n => n ≠ 0

/-- JavaScript `a || b` on optional strings: `a` when truthy, otherwise `b`. -/
def jsOr (a b : Option String) : Option String :=
  if strTruthy a then a else b

/-! ## Credential store (`src/auth.ts`) -/

/-- A parsed `~/.copilot/session.json` record as written by `saveSession`:
`token`, `expiresAt` (epoch ms), optional `endpoint`. -/
structure SessionRecord where
  token : String
  expiresAt : Option Int
  endpoint : Option String
deriving Repr, DecidableEq

/-- State of a credential file on disk as seen by a reader: missing,
unparseable (read or JSON error, caught and degraded to absent), or a
parsed record. -/
inductive SessionFile where
  | absent
  | malformed
  | present (r : SessionRecord)
deriving Repr, DecidableEq

/-- `CopilotAuth.getCachedSession` (`src/auth.ts` lines 131-149): returns the
parsed session unless `parsed.expiresAt` is truthy and
`Date.now() > parsed.expiresAt - 5 * 60 * 1000` (the 5-minute early-expiry
buffer), in which case it returns `null`. Missing or malformed files degrade
to `null`. -/
def getCachedSession (file : SessionFile) (now : Int) : Option SessionRecord :=
  match file with
  | .absent => none
  | .malformed => none
  | .present r =>
    match r.expiresAt with
    | some e => if e ≠ 0 ∧ now > e - 5 * 60 * 1000 then none else some r
    | none => some r

/-- A parsed `~/.copilot/token.json` record: the long-lived OAuth token field
(possibly missing from the JSON). -/
structure TokenRecord where
  token : Option String
deriving Repr, DecidableEq

/-- State of the long-lived token file on disk. -/
inductive TokenFile where
  | absent
  | malformed
  | present (r : TokenRecord)
deriving Repr, DecidableEq

/-- `CopilotAuth.getCachedToken` (`src/auth.ts` lines 74-85):
`parsed.token || null`, with missing or unreadable files degrading to
`null`. -/
def getCachedToken (file : TokenFile) : Option String :=
  match file with
  | .absent => none
  | .malformed => none
  | .present r => if strTruthy r.token then r.token else none

/-- The two recognized environment variables. -/
structure EnvVars where
  GITHUB_TOKEN : Option String
  COPILOT_TOKEN : Option String
deriving Repr, DecidableEq

/-- `process.env.GITHUB_TOKEN || process.env.COPILOT_TOKEN`. -/
def envToken (env : EnvVars) : Option String :=
  jsOr env.GITHUB_TOKEN env.COPILOT_TOKEN

/-- `CopilotAuth.getToken` (`src/auth.ts` lines 52-68): the environment
variables first, then the cached disk token, else `null`. -/
def getToken (env : EnvVars) (file : TokenFile) : Option String :=
  let e := envToken env
  if strTruthy e then e
  else
    let cached := getCachedToken file
    if strTruthy cached then cached
    else none

/-- The CLI resolver `authenticate` (cli entry, `src/unnamed/part_009`
lines 149-171): first the cached disk token, then the environment
variables, then the interactive device flow. `flowToken` stands for the
token the device flow would produce when reached. -/
def authenticate (env : EnvVars) (file : TokenFile) (flowToken : String) :
    String :=
  let cached := getCachedToken file
  if strTruthy cached then cached.getD ""
  else
    let e := envToken env
    if strTruthy e then e.getD ""
    else flowToken

/-! ## File-write traces (`saveToken`, `saveSession`, job-file module) -/

/-- One file-system side effect, in program order. -/
inductive FsOp where
  | mkdirRecursive (dir : String)
  | writeFile (path contents : String)
  | renameFile (src dst : String)
deriving Repr, DecidableEq

/-- The job-file module helper `atomicWrite` (`src/unnamed/part_007`
lines 44-48): write to `path + ".tmp"`, then rename over the target. -/
def atomicWrite (filePath data : String) : List FsOp :=
  [.writeFile (filePath ++ ".tmp") data, .renameFile (filePath ++ ".tmp") filePath]

/-- `writeJob` (`src/unnamed/part_007` lines 50-53): ensure the jobs
directory exists, then `atomicWrite` the serialized job. -/
def writeJob (dirExists : Bool) (jobsDir jobPath json : String) : List FsOp :=
  (if dirExists then [] else [.mkdirRecursive jobsDir]) ++ atomicWrite jobPath json

/-- `CopilotAuth.saveToken` (`src/auth.ts` lines 108-125): ensure the config
directory exists, then a single direct `fs.writeFileSync` to the token
path. -/
def saveToken (dirExists : Bool) (dir tokenPath json : String) : List FsOp :=
  (if dirExists then [] else [.mkdirRecursive dir]) ++ [.writeFile tokenPath json]

/-- `CopilotAuth.saveSession` (`src/auth.ts` lines 154-167): ensure the
config directory exists, then a single direct `fs.writeFileSync` to the
session path. -/
def saveSession (dirExists : Bool) (dir sessionPath json : String) : List FsOp :=
  (if dirExists then [] else [.mkdirRecursive dir]) ++ [.writeFile sessionPath json]

/-- A trace writes `target` atomically in the write-temp-then-rename
discipline: no write ever touches `target` directly, and some temporary
path distinct from `target` is written and then renamed over it, in that
order. -/
def atomicReplaceWrite (target : String) (ops : List FsOp) : Prop :=
  (∀ c, FsOp.writeFile target c ∉ ops) ∧
  ∃ tmp c, tmp ≠ target ∧
    List.Sublist [FsOp.writeFile tmp c, FsOp.renameFile tmp target] ops

/-! ## Device-flow polling (`CopilotAuth.pollDeviceFlow`, `src/auth.ts`
lines 254-307) -/

/-- One response of the access-token endpoint, classified by the branch the
code takes on it: `error === "authorization_pending"`, another truthy
`error` (with its `error_description`), a truthy `access_token`, a body
with neither field, an HTTP 400 transport error (treated like pending), or
another transport error (rethrown). -/
inductive PollResponse where
  | pending
  | errorResp (desc : String)
  | accessToken (tok : String)
  | emptyBody
  | httpStatus400
  | transportError (msg : String)
deriving Repr, DecidableEq

/-- Outcome of the device-flow polling loop. `exhausted` marks the model
boundary where the scripted response list ran out while the loop would
have polled again. -/
inductive PollResult where
  | success (tok : String)
  | flowError (desc : String)
  | thrown (msg : String)
  | timeout
  | exhausted
deriving Repr, DecidableEq

/-- Accumulated observable effects of one polling run: the final result, the
number of network calls made, the tokens passed to `saveToken`, and the
durations of the sleeps performed (ms, program order). -/
structure PollRun where
  result : PollResult
  calls : Nat
  saved : List String
  sleeps : List Nat
deriving Repr, DecidableEq

/-- The polling loop body: `while (attempts < 120)`, one `POST` per
iteration; `authorization_pending` and HTTP 400 increment `attempts` and
sleep 10000 ms; another truthy `error` raises; a truthy `access_token` is
saved and returned; a body with neither field loops without incrementing;
after the loop a timeout error is raised. -/
def pollLoop (attempts : Nat) : List PollResponse → PollRun
  | [] =>
    if attempts < 120 then ⟨.exhausted, 0, [], []⟩ else ⟨.timeout, 0, [], []⟩
  | r :: rest =>
    if attempts < 120 then
      match r with
      | .pending =>
        let p := pollLoop (attempts + 1) rest
        ⟨p.result, p.calls + 1, p.saved, 10000 :: p.sleeps⟩
      | .httpStatus400 =>
        let p := pollLoop (attempts + 1) rest
        ⟨p.result, p.calls + 1, p.saved, 10000 :: p.sleeps⟩
      | .errorResp desc => ⟨.flowError desc, 1, [], []⟩
      | .accessToken t => ⟨.success t, 1, [t], []⟩
      | .transportError m => ⟨.thrown m, 1, [], []⟩
      | .emptyBody =>
        let p := pollLoop attempts rest
        ⟨p.result, p.calls + 1, p.saved, p.sleeps⟩
    else ⟨.timeout, 0, [], []⟩

/-- `CopilotAuth.pollDeviceFlow` run against a scripted list of server
responses, starting at `attempts = 0`. -/
def pollDeviceFlow (responses : List PollResponse) : PollRun :=
  pollLoop 0 responses

/-! ## Session exchange (`CopilotClient.ensureAuthenticated`,
`src/chatgpt-sender.ts` lines 718-786) -/

/-- The success body of the token-exchange endpoint: the session token and
the optional `refresh_in` (seconds) and `expires_at` (epoch seconds)
fields. -/
structure TokenExchangeData where
  token : String
  refresh_in : Option Int
  expires_at : Option Int
deriving Repr, DecidableEq

/-- One outcome of the exchange `GET`: a success body, or a failure with
an optional HTTP status (`error?.response?.status`) and the message
`formatError` would extract. -/
inductive ExchangeOutcome where
  | success (d : TokenExchangeData)
  | failure (httpStatus : Option Nat) (msg : String)
deriving Repr, DecidableEq

/-- The errors `ensureAuthenticated` can raise: no long-lived credential
set, the distinct 404 no-active-subscription error, or the generic
exchange failure wrapping the last underlying message. `exhausted` marks
the model boundary where the scripted outcome list ran out. -/
inductive AuthError where
  | notAuthenticated
  | noSubscription
  | exchangeFailed (lastMsg : String)
  | exhausted
deriving Repr, DecidableEq

/-- Expiry computation on a successful exchange (`src/chatgpt-sender.ts`
lines 748-755): `refresh_in` when truthy, else `expires_at` when truthy,
else 30 minutes from now. -/
def computeExpiry (now : Int) (d : TokenExchangeData) : Int :=
  if intTruthy d.refresh_in then now + d.refresh_in.getD 0 * 1000
  else if intTruthy d.expires_at then d.expires_at.getD 0 * 1000
  else now + 30 * 60 * 1000

/-- The retry loop of `ensureAuthenticated` (`for attempt in 0..2`): each
iteration makes one exchange call with the long-lived credential `g`; a
404 raises the distinct subscription error immediately; other failures
retry while `attempt < maxAttempts - 1`, the last one raising the generic
error with the failure message. Returns the outcome together with the
credential sent on each network call, in order. -/
def exchangeAttempts (g : String) (now : Int) (attempt : Nat) :
    List ExchangeOutcome → Except AuthError (String × Int) × List String
  | [] => (.error .exhausted, [])
  | r :: rest =>
    match r with
    | .success d => (.ok (d.token, computeExpiry now d), [g])
    | .failure status msg =>
      if status = some 404 then (.error .noSubscription, [g])
      else if attempt < 3 - 1 then
        let p := exchangeAttempts g now (attempt + 1) rest
        (p.1, g :: p.2)
      else (.error (.exchangeFailed msg), [g])

/-- The in-memory client state that `ensureAuthenticated` consults. -/
structure ClientState where
  localMode : Bool
  token : Option String
  tokenExpiresAt : Int
  githubToken : Option String
  hasAuthStore : Bool
deriving Repr, DecidableEq

/-- Result of one `ensureAuthenticated` call: the outcome (updated state or
error), the long-lived credential sent on each exchange network call, and
the `(token, expiresAt)` pairs passed to `auth.saveSession`. -/
structure EnsureResult where
  outcome : Except AuthError ClientState
  exchangeCalls : List String
  savedSessions : List (String × Int)
deriving Repr

/-- `CopilotClient.ensureAuthenticated` (`src/chatgpt-sender.ts` lines
718-786) run against a scripted list of exchange outcomes: local mode and
a held session token with more than the 5-minute buffer remaining return
without any network call; a falsy `githubToken` raises; otherwise the
retry loop runs, and on success the state is updated and the session is
persisted when an auth store is attached. -/
def ensureAuthenticated (st : ClientState) (now : Int)
    (responses : List ExchangeOutcome) : EnsureResult :=
  if st.localMode then ⟨.ok st, [], []⟩
  else if strTruthy st.token ∧ now < st.tokenExpiresAt - 5 * 60 * 1000 then
    ⟨.ok st, [], []⟩
  else if ¬ strTruthy st.githubToken then ⟨.error .notAuthenticated, [], []⟩
  else
    let g := st.githubToken.getD ""
    let p := exchangeAttempts g now 0 responses
    match p.1 with
    | .ok (tok, exp) =>
      ⟨.ok { st with token := some tok, tokenExpiresAt := exp }, p.2,
        if st.hasAuthStore then [(tok, exp)] else []⟩
    | .error e => ⟨.error e, p.2, []⟩

/-! ## Job polling (`pollForCompletion`, `src/chatgpt.ts` lines 75-128) -/

/-- Job lifecycle status values. -/
inductive JobStatus where
  | dispatched
  | watching
  | completed
  | jobError
deriving Repr, DecidableEq

/-- The fields of a job record that `pollForCompletion` consults:
`status`, the optional `response` text, the optional `error` description,
and the optional heartbeat instant (epoch ms, parsed from the stored ISO
string). -/
structure JobRecord where
  status : JobStatus
  response : Option String
  error : Option String
  lastHeartbeat : Option Int
deriving Repr, DecidableEq

/-- Outcome of the poll loop. `ranOut` marks the model boundary where the
scripted observation list ended while the loop would have polled again. -/
inductive PollOutcome where
  | timeout
  | disappeared
  | completedWith (text : String)
  | jobFailed (msg : String)
  | watcherDead
  | ranOut
deriving Repr, DecidableEq

/-- The message `job.error || "unknown error"` of the error branch. -/
def jobErrorMsg (e : Option String) : String :=
  match e with
  | some s => if s = "" then "unknown error" else s
  | none => "unknown error"

/-- One pass of the poll loop per observation, with the 1000 ms poll
interval made endogenous: iteration `i` runs at `start + i * 1000` ms
(the idealization that one iteration takes exactly the poll interval).
Checks in source order: elapsed time over the 300 000 ms timeout, the job
file missing, `completed` with a present response, `error`, then the
heartbeat-staleness check (`watching`, truthy heartbeat, age over
30 000 ms). -/
def pollSteps (start : Int) (i : Nat) : List (Option JobRecord) → PollOutcome
  | [] => if (i : Int) * 1000 > 300000 then .timeout else .ranOut
  | j :: rest =>
    if (i : Int) * 1000 > 300000 then .timeout
    else
      match j with
      | none => .disappeared
      | some job =>
        if job.status = .completed ∧ job.response.isSome then
          .completedWith (job.response.getD "")
        else if job.status = .jobError then .jobFailed (jobErrorMsg job.error)
        else if job.status = .watching ∧ job.lastHeartbeat.isSome ∧
            (start + (i : Int) * 1000) - job.lastHeartbeat.getD 0 > 30000 then
          .watcherDead
        else pollSteps start (i + 1) rest

/-- `pollForCompletion` run against a scripted sequence of job-file reads,
one per 1-second iteration. -/
def pollForCompletion (start : Int) (obs : List (Option JobRecord)) :
    PollOutcome :=
  pollSteps start 0 obs

/-! ## Synthesized stream of the local server browser backend
(`startServer`, `src/serve.ts` lines 168-218) -/

/-- The delta object of a synthesized chunk. -/
structure Delta where
  role : Option String
  content : Option String
deriving Repr, DecidableEq

/-- One choice of a synthesized `chat.completion.chunk`. -/
structure ChunkChoice where
  index : Nat
  delta : Delta
  finish_reason : Option String
deriving Repr, DecidableEq

/-- One server-sent event written by the proxy: a structured
`chat.completion.chunk` payload (via `sseChunk`) or the literal
`data: [DONE]` sentinel. -/
inductive ServerEvent where
  | chunk (id : String) (created : Int) (model : String)
      (choices : List ChunkChoice)
  | doneSentinel
deriving Repr, DecidableEq

/-- The backend decision (`src/serve.ts` line 166): the browser backend is
used when the requested model is `"chatgpt"` or no Copilot client was
created. -/
def useChatGPT (model : String) (hasClient : Bool) : Bool :=
  model = "chatgpt" || !hasClient

/-- The event sequence the proxy writes for a streaming request served by
the browser backend (`src/serve.ts` lines 188-218): one content chunk
carrying the whole extracted answer, one empty-delta chunk with
`finish_reason: "stop"`, then the `[DONE]` sentinel. -/
def chatGptStreamEvents (requestId : String) (timestamp : Int)
    (response : String) : List ServerEvent :=
  [ .chunk requestId timestamp "chatgpt"
      [⟨0, ⟨some "assistant", some response⟩, none⟩],
    .chunk requestId timestamp "chatgpt" [⟨0, ⟨none, none⟩, some "stop"⟩],
    .doneSentinel ]

/-- All delta contents carried by a list of events, in order. -/
def deltaContents (es : List ServerEvent) : List String :=
  es.flatMap fun e =>
    match e with
    | .chunk _ _ _ cs => cs.filterMap fun c => c.delta.content
    | .doneSentinel => []

/-- All finish reasons carried by a list of events, in order. -/
def finishReasons (es : List ServerEvent) : List (Option String) :=
  es.flatMap fun e =>
    match e with
    | .chunk _ _ _ cs => cs.map fun c => c.finish_reason
    | .doneSentinel => []

/-! ## Streaming response parsing (`CopilotClient.chatStream`,
`src/chatgpt-sender.ts` lines 893-958)

The handler text is modelled as `List Char` so that arbitrary chunk
boundaries are plain list splits. A faithful JSON reader models
`JSON.parse` on the payload of each `data: ` line; numbers are kept as
their raw lexemes since the code never reads a numeric value from the
stream. -/

/-- An opening curly brace character. -/
def lbrace : Char := Char.ofNat 123

/-- A closing curly brace character. -/
def rbrace : Char := Char.ofNat 125

/-- A JSON value. Numbers keep their lexeme. -/
inductive Json where
  | jnull
  | jbool (b : Bool)
  | jnum (raw : List Char)
  | jstr (s : List Char)
  | jarr (xs : List Json)
  | jobj (fields : List (List Char × Json))
deriving Repr

/-- JSON whitespace. -/
def isJsonWs (c : Char) : Bool :=
  c = ' ' || c = '\t' || c = '\n' || c = '\r'

/-- Skip leading JSON whitespace. -/
def skipWs : List Char → List Char
  | [] => []
  | c :: cs => if isJsonWs c then skipWs cs else c :: cs

/-- Value of a hex digit. -/
def hexVal (c : Char) : Option Nat :=
  if '0' ≤ c ∧ c ≤ '9' then some (c.toNat - '0'.toNat)
  else if 'a' ≤ c ∧ c ≤ 'f' then some (c.toNat - 'a'.toNat + 10)
  else if 'A' ≤ c ∧ c ≤ 'F' then some (c.toNat - 'A'.toNat + 10)
  else none

/-- Single-character JSON string escapes. -/
def escChar (c : Char) : Option Char :=
  if c = '\"' then some '\"'
  else if c = '\\' then some '\\'
  else if c = '/' then some '/'
  else if c = 'b' then some (Char.ofNat 8)
  else if c = 'f' then some (Char.ofNat 12)
  else if c = 'n' then some '\n'
  else if c = 'r' then some '\r'
  else if c = 't' then some '\t'
  else none

/-- Body of a JSON string after the opening quote: returns the decoded
characters and the remaining input after the closing quote. Fails on a
raw control character, a bad escape, or a missing closing quote. -/
def parseStringBody (fuel : Nat) (cs : List Char) :
    Option (List Char × List Char) :=
  match fuel with
  | 0 => none
  | fuel + 1 =>
    match cs with
    | [] => none
    | c :: rest =>
      if c = '\"' then some ([], rest)
      else if c = '\\' then
        match rest with
        | [] => none
        | e :: rest2 =>
          if e = 'u' then
            match rest2 with
            | a :: b :: c2 :: d :: rest3 =>
              match hexVal a, hexVal b, hexVal c2, hexVal d with
              | some ha, some hb, some hc, some hd =>
                match parseStringBody fuel rest3 with
                | some (s, r) =>
                  some (Char.ofNat (((ha * 16 + hb) * 16 + hc) * 16 + hd) :: s, r)
                | none => none
              | _, _, _, _ => none
            | _ => none
          else
            match escChar e with
            | some ch =>
              match parseStringBody fuel rest2 with
              | some (s, r) => some (ch :: s, r)
              | none => none
            | none => none
      else if c.toNat < 32 then none
      else
        match parseStringBody fuel rest with
        | some (s, r) => some (c :: s, r)
        | none => none

/-- Decimal digit test. -/
def isDigitChar (c : Char) : Bool := '0' ≤ c && c ≤ '9'

/-- Longest leading run of decimal digits. -/
def takeDigits : List Char → List Char × List Char
  | [] => ([], [])
  | c :: cs =>
    if isDigitChar c then
      let p := takeDigits cs
      (c :: p.1, p.2)
    else ([], c :: cs)

/-- A JSON number lexeme: optional minus, an integer part without a
superfluous leading zero, optional fraction, optional exponent. Returns
the lexeme and the rest. -/
def parseNumber (cs : List Char) : Option (List Char × List Char) :=
  let (sign, cs1) :=
    match cs with
    | '-' :: cs1 => (['-'], cs1)
    | _ => (([] : List Char), cs)
  match cs1 with
  | [] => none
  | c :: _ =>
    if ¬ isDigitChar c then none
    else
      let (intPart, cs2) := takeDigits cs1
      if intPart.length > 1 ∧ intPart.headI = '0' then none
      else
        let (fracPart, cs3) :=
          match cs2 with
          | '.' :: cs2a =>
            let p := takeDigits cs2a
            if p.1 = [] then ([], cs2) else ('.' :: p.1, p.2)
          | _ => (([] : List Char), cs2)
        if fracPart = [] ∧ (cs2.headI = '.') then none
        else
          let (expPart, cs4) :=
            match cs3 with
            | e :: cs3a =>
              if e = 'e' ∨ e = 'E' then
                let (es, cs3b) :=
                  match cs3a with
                  | '+' :: t => (['+'], t)
                  | '-' :: t => (['-'], t)
                  | _ => (([] : List Char), cs3a)
                let p := takeDigits cs3b
                if p.1 = [] then (([] : List Char), cs3)
                else (e :: es ++ p.1, p.2)
              else (([] : List Char), cs3)
            | [] => ([], [])
          some (sign ++ intPart ++ fracPart ++ expPart, cs4)

mutual

/-- A JSON value with leading whitespace, by first character: string,
object, array, literal, or number. -/
def parseValue (fuel : Nat) (cs : List Char) : Option (Json × List Char) :=
  match fuel with
  | 0 => none
  | fuel + 1 =>
    match skipWs cs with
    | [] => none
    | c :: rest =>
      if c = '\"' then
        match parseStringBody (rest.length + 1) rest with
        | some (s, r) => some (.jstr s, r)
        | none => none
      else if c = lbrace then parseObjBody fuel rest
      else if c = '[' then parseArrBody fuel rest
      else if c = 't' then
        match rest with
        | 'r' :: 'u' :: 'e' :: r => some (.jbool true, r)
        | _ => none
      else if c = 'f' then
        match rest with
        | 'a' :: 'l' :: 's' :: 'e' :: r => some (.jbool false, r)
        | _ => none
      else if c = 'n' then
        match rest with
        | 'u' :: 'l' :: 'l' :: r => some (.jnull, r)
        | _ => none
      else
        match parseNumber (c :: rest) with
        | some (raw, r) => some (.jnum raw, r)
        | none => none

/-- An object body after the opening brace: empty object or members. -/
def parseObjBody (fuel : Nat) (cs : List Char) : Option (Json × List Char) :=
  match fuel with
  | 0 => none
  | fuel + 1 =>
    match skipWs cs with
    | [] => none
    | c :: rest =>
      if c = rbrace then some (.jobj [], rest)
      else parseMembers fuel (c :: rest)

/-- Object members: a quoted key, a colon, a value, then a comma and more
members or the closing brace. -/
def parseMembers (fuel : Nat) (cs : List Char) : Option (Json × List Char) :=
  match fuel with
  | 0 => none
  | fuel + 1 =>
    match skipWs cs with
    | '\"' :: rest =>
      match parseStringBody (rest.length + 1) rest with
      | some (key, r1) =>
        match skipWs r1 with
        | ':' :: r2 =>
          match parseValue fuel r2 with
          | some (v, r3) =>
            match skipWs r3 with
            | ',' :: r4 =>
              match parseMembers fuel r4 with
              | some (.jobj fs, r5) => some (.jobj ((key, v) :: fs), r5)
              | _ => none
            | c :: r4 =>
              if c = rbrace then some (.jobj [(key, v)], r4) else none
            | [] => none
          | none => none
        | _ => none
      | none => none
    | _ => none

/-- An array body after the opening bracket: empty array or items. -/
def parseArrBody (fuel : Nat) (cs : List Char) : Option (Json × List Char) :=
  match fuel with
  | 0 => none
  | fuel + 1 =>
    match skipWs cs with
    | [] => none
    | c :: rest =>
      if c = ']' then some (.jarr [], rest)
      else parseItems fuel (c :: rest)

/-- Array items: a value, then a comma and more items or the closing
bracket. -/
def parseItems (fuel : Nat) (cs : List Char) : Option (Json × List Char) :=
  match fuel with
  | 0 => none
  | fuel + 1 =>
    match parseValue fuel cs with
    | some (v, r1) =>
      match skipWs r1 with
      | ',' :: r2 =>
        match parseItems fuel r2 with
        | some (.jarr xs, r3) => some (.jarr (v :: xs), r3)
        | _ => none
      | ']' :: r2 => some (.jarr [v], r2)
      | _ => none
    | none => none

end

/-- `JSON.parse` on a whole payload: one value, with only whitespace
allowed after it. -/
def jsonParse (cs : List Char) : Option Json :=
  match parseValue (2 * cs.length + 2) cs with
  | some (v, rest) => if skipWs rest = [] then some v else none
  | none => none

/-- Field access on an object, last duplicate key winning as in
`JSON.parse`; `undefined` on non-objects. -/
def getField (j : Json) (key : List Char) : Option Json :=
  match j with
  | .jobj fs => fs.foldl (fun acc kv => if kv.1 = key then some kv.2 else acc) none
  | _ => none

/-- Index access on an array; `undefined` on non-arrays. -/
def getIndex (j : Json) (i : Nat) : Option Json :=
  match j with
  | .jarr xs => xs.get? i
  | _ => none

/-- The optional chain `parsed.choices?.[0]?.delta?.content`. -/
def extractContent (j : Json) : Option Json :=
  ((getField j "choices".toList).bind fun c =>
    (getIndex c 0).bind fun c0 =>
      (getField c0 "delta".toList).bind fun d =>
        getField d "content".toList)

/-- What the handler does with one complete line: a `data: ` line whose
payload is `[DONE]` resolves the stream; a payload that parses to JSON
with a truthy string `content` delta is forwarded to `onChunk`; anything
else (non-data lines, parse failures, absent or falsy content) is
silently skipped. -/
inductive LineResult where
  | done
  | frag (content : List Char)
  | skip
deriving Repr, DecidableEq

/-- A `data: ` line with the given payload. -/
def dataLine (payload : List Char) : List Char :=
  'd' :: 'a' :: 't' :: 'a' :: ':' :: ' ' :: payload

/-- Processing of one complete line (`src/chatgpt-sender.ts` lines
923-941). -/
def processLine (l : List Char) : LineResult :=
  match l with
  | 'd' :: 'a' :: 't' :: 'a' :: ':' :: ' ' :: payload =>
    if payload = "[DONE]".toList then .done
    else
      match jsonParse payload with
      | none => .skip
      | some v =>
        match extractContent v with
        | some (.jstr s) => if s = [] then .skip else .frag s
        | _ => .skip
  | _ => .skip

/-- Process a list of complete lines in order, stopping (as the early
`return` after `[DONE]` does) at the first `done` line and skipping the
remainder of the list. Returns the fragments forwarded and whether a
`done` line was hit. -/
def processList : List (List Char) → List (List Char) × Bool
  | [] => ([], false)
  | l :: ls =>
    match processLine l with
    | .done => ([], true)
    | .frag c =>
      let p := processList ls
      (c :: p.1, p.2)
    | .skip => processList ls

/-- One character step of newline splitting, processed right to left: a
newline opens a fresh complete line in front; any other character extends
the first complete line, or the remainder when no newline has been seen
yet. -/
def splitStep (c : Char) (p : List (List Char) × List Char) :
    List (List Char) × List Char :=
  if c = '\n' then ([] :: p.1, p.2)
  else
    match p.1 with
    | [] => ([], c :: p.2)
    | l :: t => ((c :: l) :: t, p.2)

/-- JavaScript `s.split("\n")` followed by `pop()`: the complete lines and
the trailing remainder (the part after the last newline). -/
def splitLines (s : List Char) : List (List Char) × List Char :=
  s.foldr splitStep ([], [])

/-- The mutable state of the stream handler: the carried-over partial line
and the fragments forwarded so far. -/
structure SseState where
  buffer : List Char
  frags : List (List Char)
deriving Repr, DecidableEq

/-- One `data` event of the response stream: append the chunk to the
buffer, split on newlines, keep the last piece as the new buffer, and
process the complete lines. -/
def handleChunk (st : SseState) (chunk : List Char) : SseState :=
  let p := splitLines (st.buffer ++ chunk)
  ⟨p.2, st.frags ++ (processList p.1).1⟩

/-- `chatStream` on a scripted sequence of `data` events: the ordered
fragments forwarded to `onChunk`. -/
def chatStream (chunks : List (List Char)) : List (List Char) :=
  (chunks.foldl handleChunk ⟨[], []⟩).frags

/-- A line is a fragment-producing line. -/
def fragLine (l : List Char) : Bool :=
  match processLine l with
  | .frag _ => true
  | _ => false

/-- Protocol conformance of a complete-line sequence: every line after a
terminal `data: [DONE]` line produces no fragment. Streams of the chat
protocol end with the sentinel, so this holds of them vacuously or
because nothing follows the sentinel. -/
def okLines : List (List Char) → Bool
  | [] => true
  | l :: ls =>
    if processLine l = LineResult.done then ls.all fun x => !fragLine x
    else okLines ls

/-! ## Byte-level stream events

The source handler receives raw Buffers and appends `chunk.toString()` to
its string buffer (`src/chatgpt-sender.ts` line 919, no `setEncoding`),
so every chunk is UTF-8-decoded independently before the newline split.
Node implements the WHATWG UTF-8 decoder in replacement mode: an invalid
byte, or a sequence truncated at the end of a Buffer, decodes to U+FFFD.
Bytes are modelled as `Nat` values below 256. -/

/-- The Unicode replacement character U+FFFD. -/
def replacementChar : Char := Char.ofNat 0xFFFD

/-- State of the WHATWG UTF-8 decoder: continuation bytes still needed
and already seen for the current sequence, the codepoint accumulator, and
the accepted range for the next continuation byte. -/
structure Utf8State where
  needed : Nat
  seen : Nat
  cp : Nat
  lo : Nat
  hi : Nat
deriving Repr, DecidableEq

/-- Fresh decoder state. -/
def utf8Init : Utf8State := ⟨0, 0, 0, 0x80, 0xBF⟩

/-- Handling of one byte in the ground state: ASCII is emitted directly, a
lead byte opens a multibyte sequence with its first-continuation range
(tightened for 0xE0/0xED/0xF0/0xF4 to exclude overlong forms, surrogates
and values past U+10FFFF), and anything else is an error emitting one
replacement character. -/
def utf8Start (b : Nat) : List Char × Utf8State :=
  if b ≤ 0x7F then ([Char.ofNat b], utf8Init)
  else if 0xC2 ≤ b ∧ b ≤ 0xDF then ([], ⟨1, 0, b % 0x20, 0x80, 0xBF⟩)
  else if 0xE0 ≤ b ∧ b ≤ 0xEF then
    ([], ⟨2, 0, b % 0x10, if b = 0xE0 then 0xA0 else 0x80,
      if b = 0xED then 0x9F else 0xBF⟩)
  else if 0xF0 ≤ b ∧ b ≤ 0xF4 then
    ([], ⟨3, 0, b % 0x8, if b = 0xF0 then 0x90 else 0x80,
      if b = 0xF4 then 0x8F else 0xBF⟩)
  else ([replacementChar], utf8Init)

/-- The WHATWG UTF-8 decoding loop in replacement mode: a continuation
byte outside the accepted range emits one replacement character and
reprocesses the byte in the ground state; a sequence truncated at the end
of the input emits one replacement character. -/
def utf8DecodeLoop : Utf8State → List Nat → List Char
  | st, [] => if st.needed = 0 then [] else [replacementChar]
  | st, b :: rest =>
    if st.needed = 0 then
      (utf8Start b).1 ++ utf8DecodeLoop (utf8Start b).2 rest
    else if st.lo ≤ b ∧ b ≤ st.hi then
      if st.seen + 1 = st.needed then
        Char.ofNat (st.cp * 64 + b % 64) :: utf8DecodeLoop utf8Init rest
      else
        utf8DecodeLoop ⟨st.needed, st.seen + 1, st.cp * 64 + b % 64,
          0x80, 0xBF⟩ rest
    else
      replacementChar ::
        ((utf8Start b).1 ++ utf8DecodeLoop (utf8Start b).2 rest)

/-- Node `chunk.toString("utf8")` on one Buffer. -/
def bufferToString (bytes : List Nat) : List Char :=
  utf8DecodeLoop utf8Init bytes

/-- Standard UTF-8 encoding of one Unicode scalar value. -/
def utf8EncodeChar (cp : Nat) : List Nat :=
  if cp < 0x80 then [cp]
  else if cp < 0x800 then [0xC0 + cp / 64, 0x80 + cp % 64]
  else if cp < 0x10000 then
    [0xE0 + cp / 4096, 0x80 + cp / 64 % 64, 0x80 + cp % 64]
  else
    [0xF0 + cp / 0x40000, 0x80 + cp / 4096 % 64, 0x80 + cp / 64 % 64,
      0x80 + cp % 64]

/-- UTF-8 encoding of a character sequence: the bytes the server sends for
that text. -/
def utf8Encode (s : List Char) : List Nat :=
  s.flatMap fun c => utf8EncodeChar c.toNat

/-- One `data` event at the byte level: the handler decodes the Buffer
with `chunk.toString()` and appends the decoded text to its string
buffer. -/
def handleChunkBytes (st : SseState) (chunk : List Nat) : SseState :=
  handleChunk st (bufferToString chunk)

/-- `chatStream` on a scripted sequence of raw byte Buffers: the ordered
fragments forwarded to `onChunk`. -/
def chatStreamBytes (chunks : List (List Nat)) : List (List Char) :=
  (chunks.foldl handleChunkBytes ⟨[], []⟩).frags

/-! ## Theorems -/

/-- C1: a stored session credential with an expiry timestamp read with less
than 5 minutes remaining (or already past expiry) is absent; read with more
than 5 minutes remaining it is returned unchanged; and
`ensureAuthenticated` makes no exchange network call while the held session
credential has more than 5 minutes remaining. -/
theorem getCachedSession_five_minute_buffer :
    (∀ (r : SessionRecord) (e now : Int), r.expiresAt = some e → 0 < e →
      ((e - now < 5 * 60 * 1000 → getCachedSession (.present r) now = none) ∧
       (5 * 60 * 1000 < e - now → getCachedSession (.present r) now = some r))) ∧
    (∀ (st : ClientState) (now : Int) (responses : List ExchangeOutcome),
      strTruthy st.token = true → now < st.tokenExpiresAt - 5 * 60 * 1000 →
      (ensureAuthenticated st now responses).exchangeCalls = [] ∧
      (ensureAuthenticated st now responses).outcome = .ok st) := by
  constructor
  · intro r e now he hpos
    constructor
    · intro hwithin
      simp only [getCachedSession, he]
      rw [if_pos]
      exact ⟨by omega, by omega⟩
    · intro hfar
      simp only [getCachedSession, he]
      rw [if_neg]
      intro ⟨_, h2⟩
      omega
  · intro st now responses htok hfar
    have h : ensureAuthenticated st now responses = ⟨.ok st, [], []⟩ := by
      unfold ensureAuthenticated
      by_cases hl : st.localMode
      · simp [hl]
      · simp [hl, htok, hfar]
        intro h3
        exact absurd hfar (by omega)
    rw [h]
    exact ⟨rfl, rfl⟩

/-- C1 witness: concrete reads at 200 000 ms and 700 000 ms before a
1 000 000 ms expiry, and a concrete client state needing no exchange. -/
theorem getCachedSession_five_minute_buffer_witness :
    getCachedSession (.present ⟨"tok", some 1000000, none⟩) 800000 = none ∧
    getCachedSession (.present ⟨"tok", some 1000000, none⟩) 300000 =
      some ⟨"tok", some 1000000, none⟩ ∧
    (ensureAuthenticated ⟨false, some "sess", 1000000, some "gh", true⟩ 0
      []).exchangeCalls = [] := by
  refine ⟨?_, ?_, ?_⟩
  · exact (getCachedSession_five_minute_buffer.1 ⟨"tok", some 1000000, none⟩
      1000000 800000 rfl (by norm_num)).1 (by norm_num)
  · exact (getCachedSession_five_minute_buffer.1 ⟨"tok", some 1000000, none⟩
      1000000 300000 rfl (by norm_num)).2 (by norm_num)
  · exact (getCachedSession_five_minute_buffer.2
      ⟨false, some "sess", 1000000, some "gh", true⟩ 0 [] (by decide)
      (by norm_num)).1

/-- C10: a stored session record without an `expiresAt` field is returned
by `getCachedSession` as valid at every read time, since the 5-minute
expiry check is only applied to a truthy `expiresAt`. -/
theorem getCachedSession_missing_expiry :
    ∀ (r : SessionRecord) (now : Int), r.expiresAt = none →
      getCachedSession (.present r) now = some r := by
  intro r now he
  simp [getCachedSession, he]

/-- C10 witness: a record without expiry read at a large time. -/
theorem getCachedSession_missing_expiry_witness :
    getCachedSession (.present ⟨"tok", none, none⟩) 999999999999 =
      some ⟨"tok", none, none⟩ :=
  getCachedSession_missing_expiry ⟨"tok", none, none⟩ 999999999999 rfl

/-- C4 counterexample: with both the environment variable and the on-disk
cached token populated, the CLI resolver `authenticate` returns the disk
value, not the environment value the claim requires. -/
theorem authenticate_store_over_env_counterexample :
    authenticate ⟨some "envtok", none⟩ (.present ⟨some "disktok"⟩) "flowtok" =
      "disktok" ∧ ("disktok" : String) ≠ "envtok" := by
  exact ⟨rfl, by decide⟩

/-- C4 amended: `CopilotAuth.getToken` resolves environment over disk
store, but the CLI resolver `authenticate` checks the disk store first,
then the environment, then the interactive device flow; each resolver
returns its highest-priority populated source in its own order. -/
theorem resolver_priority :
    (∀ (env : EnvVars) (file : TokenFile),
      strTruthy (envToken env) = true → getToken env file = envToken env) ∧
    (∀ (env : EnvVars) (file : TokenFile),
      strTruthy (envToken env) = false →
      strTruthy (getCachedToken file) = true →
      getToken env file = getCachedToken file) ∧
    (∀ (env : EnvVars) (file : TokenFile),
      strTruthy (envToken env) = false →
      strTruthy (getCachedToken file) = false → getToken env file = none) ∧
    (∀ (env : EnvVars) (file : TokenFile) (flowToken : String),
      strTruthy (getCachedToken file) = true →
      authenticate env file flowToken = (getCachedToken file).getD "") ∧
    (∀ (env : EnvVars) (file : TokenFile) (flowToken : String),
      strTruthy (getCachedToken file) = false →
      strTruthy (envToken env) = true →
      authenticate env file flowToken = (envToken env).getD "") ∧
    (∀ (env : EnvVars) (file : TokenFile) (flowToken : String),
      strTruthy (getCachedToken file) = false →
      strTruthy (envToken env) = false →
      authenticate env file flowToken = flowToken) := by
  refine ⟨?_, ?_, ?_, ?_, ?_, ?_⟩ <;> intros <;> simp [getToken, authenticate, *]

/-- C4 witness: each resolver applied at concrete populated sources. -/
theorem resolver_priority_witness :
    getToken ⟨some "e1", none⟩ (.present ⟨some "d1"⟩) = some "e1" ∧
    getToken ⟨none, none⟩ (.present ⟨some "d1"⟩) = some "d1" ∧
    getToken ⟨none, some ""⟩ .absent = none ∧
    authenticate ⟨some "e1", none⟩ (.present ⟨some "d1"⟩) "f1" = "d1" ∧
    authenticate ⟨none, some "e2"⟩ .absent "f1" = "e2" ∧
    authenticate ⟨none, none⟩ .malformed "f1" = "f1" := by
  refine ⟨?_, ?_, ?_, ?_, ?_, ?_⟩
  · exact resolver_priority.1 ⟨some "e1", none⟩ (.present ⟨some "d1"⟩) (by decide)
  · exact resolver_priority.2.1 ⟨none, none⟩ (.present ⟨some "d1"⟩) (by decide)
      (by decide)
  · exact resolver_priority.2.2.1 ⟨none, some ""⟩ .absent (by decide) (by decide)
  · exact resolver_priority.2.2.2.1 ⟨some "e1", none⟩ (.present ⟨some "d1"⟩)
      "f1" (by decide)
  · exact resolver_priority.2.2.2.2.1 ⟨none, some "e2"⟩ .absent "f1" (by decide)
      (by decide)
  · exact resolver_priority.2.2.2.2.2 ⟨none, none⟩ .malformed "f1" (by decide)
      (by decide)

/-- C8 counterexample: `saveSession` writes the session file directly
(one `writeFileSync` on the target path), so the write is not in the
write-temp-then-rename discipline the claim asserts. -/
theorem saveSession_direct_write_counterexample :
    ¬ atomicReplaceWrite "/home/user/.copilot/session.json"
      (saveSession true "/home/user/.copilot" "/home/user/.copilot/session.json"
        "sjson") := by
  intro h
  exact h.1 "sjson" (by simp [saveSession])

/-- C8 amended: job-record writes go through `atomicWrite`
(write the temp path, then rename over the target), but `saveToken` and
`saveSession` write the credential files directly with a single
`writeFileSync` on the target, not atomically. -/
theorem write_discipline :
    ∀ (dirExists : Bool) (dir jobsDir p json : String),
      atomicReplaceWrite p (writeJob dirExists jobsDir p json) ∧
      ¬ atomicReplaceWrite p (saveToken dirExists dir p json) ∧
      ¬ atomicReplaceWrite p (saveSession dirExists dir p json) := by
  intro dirExists dir jobsDir p json
  have hlen : p ++ ".tmp" ≠ p := by
    intro h
    have h2 := congrArg String.length h
    rw [String.length_append] at h2
    have h3 : ".tmp".length = 4 := rfl
    omega
  refine ⟨⟨?_, p ++ ".tmp", json, hlen, ?_⟩, ?_, ?_⟩
  · intro c hc
    unfold writeJob at hc
    rcases List.mem_append.mp hc with h | h
    · cases dirExists with
      | true => simp at h
      | false =>
        simp only [Bool.false_eq_true, if_false, List.mem_singleton] at h
        exact FsOp.noConfusion h
    · simp only [atomicWrite, List.mem_cons, List.mem_singleton,
        List.not_mem_nil, or_false] at h
      rcases h with h | h
      · have h1 : p = p ++ ".tmp" := by
          injection h
        exact hlen h1.symm
      · exact FsOp.noConfusion h
  · have h : List.Sublist (atomicWrite p json)
        (writeJob dirExists jobsDir p json) := by
      unfold writeJob
      exact List.sublist_append_right _ _
    simpa [atomicWrite] using h
  · intro h
    exact h.1 json (by cases dirExists <;> simp [saveToken])
  · intro h
    exact h.1 json (by cases dirExists <;> simp [saveSession])

/-- C9: for a streaming request routed to the browser backend, the server
synthesizes exactly one content chunk carrying the full response text and
a null finish reason, then one chunk with an empty delta and finish reason
stop, then the `[DONE]` sentinel, and nothing else. -/
theorem chatGptStreamEvents_shape :
    ∀ (id : String) (ts : Int) (resp : String),
      (chatGptStreamEvents id ts resp).length = 3 ∧
      deltaContents (chatGptStreamEvents id ts resp) = [resp] ∧
      finishReasons (chatGptStreamEvents id ts resp) = [none, some "stop"] ∧
      (chatGptStreamEvents id ts resp).get? 1 =
        some (.chunk id ts "chatgpt" [⟨0, ⟨none, none⟩, some "stop"⟩]) ∧
      (chatGptStreamEvents id ts resp).getLast? = some .doneSentinel := by
  intro id ts resp
  refine ⟨rfl, ?_, rfl, rfl, rfl⟩
  simp [chatGptStreamEvents, deltaContents]

/-- Helper: an always-pending run of the device-flow loop started at
`attempts = a` consumes exactly `120 - a` responses, sleeps 10 s between
polls, saves nothing, and times out. -/
theorem pollLoop_allPending (k : Nat) : ∀ a : Nat, a ≤ 120 → 120 ≤ a + k →
    pollLoop a (List.replicate k .pending) =
      ⟨.timeout, 120 - a, [], List.replicate (120 - a) 10000⟩ := by
  induction k with
  | zero =>
    intro a h1 h2
    have ha : a = 120 := by omega
    subst ha
    simp [pollLoop]
  | succ k ih =>
    intro a h1 h2
    by_cases h : a < 120
    · rw [List.replicate_succ]
      unfold pollLoop
      rw [if_pos h, ih (a + 1) (by omega) (by omega)]
      have e1 : 120 - (a + 1) + 1 = 120 - a := by omega
      have e2 : 120 - a = (120 - (a + 1)) + 1 := by omega
      simp only [e1]
      rw [e2, List.replicate_succ]
    · have ha : a = 120 := by omega
      subst ha
      rw [List.replicate_succ]
      unfold pollLoop
      rw [if_neg h]
      simp

/-- Helper: one pending response under the attempt ceiling costs one call
and one 10 s sleep and increments the attempt counter. -/
theorem pollLoop_pending_step (a : Nat) (rs : List PollResponse)
    (h : a < 120) :
    pollLoop a (.pending :: rs) =
      ⟨(pollLoop (a + 1) rs).result, (pollLoop (a + 1) rs).calls + 1,
       (pollLoop (a + 1) rs).saved, 10000 :: (pollLoop (a + 1) rs).sleeps⟩ := by
  rw [pollLoop, if_pos h]

/-- Helper: `n` pending responses with the loop still under its attempt
ceiling are consumed one per call, each followed by a 10 s sleep, before
the loop continues on the remaining script. -/
theorem pollLoop_pendingPrefix (n : Nat) : ∀ (a : Nat) (rs : List PollResponse),
    a + n < 120 →
    pollLoop a (List.replicate n .pending ++ rs) =
      ⟨(pollLoop (a + n) rs).result, (pollLoop (a + n) rs).calls + n,
       (pollLoop (a + n) rs).saved,
       List.replicate n 10000 ++ (pollLoop (a + n) rs).sleeps⟩ := by
  induction n with
  | zero =>
    intro a rs _
    simp
  | succ n ih =>
    intro a rs h
    rw [List.replicate_succ, List.cons_append,
        pollLoop_pending_step a _ (by omega), ih (a + 1) rs (by omega)]
    have e1 : a + 1 + n = a + (n + 1) := by omega
    rw [e1]
    simp [List.replicate_succ, Nat.add_assoc]

/-- C5: device-flow polling makes exactly 120 calls against an
always-pending server (10 s sleep after each) before raising the timeout;
a server pending `n < 120` times then issuing a token completes after
`n + 1` calls, persisting and returning the token; and a response with an
error other than `authorization_pending` raises immediately, after
`n + 1` calls, persisting nothing. -/
theorem pollDeviceFlow_spec :
    (∀ m : Nat, 120 ≤ m →
      pollDeviceFlow (List.replicate m .pending) =
        ⟨.timeout, 120, [], List.replicate 120 10000⟩) ∧
    (∀ (n : Nat) (t : String) (rest : List PollResponse), n < 120 →
      pollDeviceFlow (List.replicate n .pending ++ .accessToken t :: rest) =
        ⟨.success t, n + 1, [t], List.replicate n 10000⟩) ∧
    (∀ (n : Nat) (desc : String) (rest : List PollResponse), n < 120 →
      pollDeviceFlow (List.replicate n .pending ++ .errorResp desc :: rest) =
        ⟨.flowError desc, n + 1, [], List.replicate n 10000⟩) := by
  refine ⟨?_, ?_, ?_⟩
  · intro m hm
    unfold pollDeviceFlow
    rw [pollLoop_allPending m 0 (by omega) (by omega)]
  · intro n t rest hn
    unfold pollDeviceFlow
    rw [pollLoop_pendingPrefix n 0 _ (by omega)]
    have hstep : pollLoop (0 + n) (PollResponse.accessToken t :: rest) =
        ⟨.success t, 1, [t], []⟩ := by
      unfold pollLoop
      rw [if_pos (by omega)]
    rw [hstep]
    simp [Nat.add_comm]
  · intro n desc rest hn
    unfold pollDeviceFlow
    rw [pollLoop_pendingPrefix n 0 _ (by omega)]
    have hstep : pollLoop (0 + n) (PollResponse.errorResp desc :: rest) =
        ⟨.flowError desc, 1, [], []⟩ := by
      unfold pollLoop
      rw [if_pos (by omega)]
    rw [hstep]
    simp [Nat.add_comm]

/-- C5 witness: an always-pending script of exactly 120 responses, a
twice-pending-then-token script, and a pending-then-denial script. -/
theorem pollDeviceFlow_spec_witness :
    pollDeviceFlow (List.replicate 120 .pending) =
      ⟨.timeout, 120, [], List.replicate 120 10000⟩ ∧
    pollDeviceFlow (List.replicate 2 .pending ++ .accessToken "tok" :: []) =
      ⟨.success "tok", 3, ["tok"], List.replicate 2 10000⟩ ∧
    pollDeviceFlow (List.replicate 1 .pending ++
        .errorResp "access denied" :: []) =
      ⟨.flowError "access denied", 2, [], List.replicate 1 10000⟩ :=
  ⟨pollDeviceFlow_spec.1 120 (by norm_num),
   pollDeviceFlow_spec.2.1 2 "tok" [] (by norm_num),
   pollDeviceFlow_spec.2.2 1 "access denied" [] (by norm_num)⟩

/-- A failure outcome that the exchange loop retries: any failure whose
HTTP status is not 404. -/
def isRetryableFailure : ExchangeOutcome → Bool
  | .failure s _ => s ≠ some 404
  | .success _ => false

/-- Helper: step equation of the exchange loop for a retryable failure
within the attempt budget. -/
theorem exchangeAttempts_retry_step (g : String) (now : Int) (attempt : Nat)
    (s : Option Nat) (m : String) (rs : List ExchangeOutcome)
    (h404 : ¬ s = some 404) (hat : attempt < 3 - 1) :
    exchangeAttempts g now attempt (.failure s m :: rs) =
      ((exchangeAttempts g now (attempt + 1) rs).1,
       g :: (exchangeAttempts g now (attempt + 1) rs).2) := by
  simp only [exchangeAttempts]
  rw [if_neg h404, if_pos hat]

/-- Helper: step equation of the exchange loop for a retryable failure on
the last attempt. -/
theorem exchangeAttempts_last_step (g : String) (now : Int)
    (s : Option Nat) (m : String) (rs : List ExchangeOutcome)
    (h404 : ¬ s = some 404) :
    exchangeAttempts g now 2 (.failure s m :: rs) =
      (.error (.exchangeFailed m), [g]) := by
  simp only [exchangeAttempts]
  rw [if_neg h404, if_neg (by omega)]

/-- Helper: the exchange credential trace never exceeds the remaining
attempt budget. -/
theorem exchangeAttempts_calls_le (rs : List ExchangeOutcome) :
    ∀ (g : String) (now : Int) (attempt : Nat), attempt ≤ 2 →
      (exchangeAttempts g now attempt rs).2.length ≤ 3 - attempt := by
  induction rs with
  | nil => intro g now attempt _; simp [exchangeAttempts]
  | cons r rest ih =>
    intro g now attempt h
    match r with
    | .success d => simp [exchangeAttempts]; omega
    | .failure s m =>
      by_cases h404 : s = some 404
      · simp [exchangeAttempts, h404]; omega
      · by_cases hat : attempt < 3 - 1
        · rw [exchangeAttempts_retry_step g now attempt s m rest h404 hat]
          have hrec := ih g now (attempt + 1) (by omega)
          simp only [List.length_cons]
          omega
        · have ha : attempt = 2 := by omega
          subst ha
          rw [exchangeAttempts_last_step g now s m rest h404]
          simp

/-- Helper: retryable failures are consumed one per attempt, each call
carrying the same long-lived credential, while the attempt budget lasts. -/
theorem exchangeAttempts_skip (pre : List ExchangeOutcome) :
    ∀ (g : String) (now : Int) (attempt : Nat) (rs : List ExchangeOutcome),
      (∀ r ∈ pre, isRetryableFailure r = true) → attempt + pre.length ≤ 2 →
      exchangeAttempts g now attempt (pre ++ rs) =
        ((exchangeAttempts g now (attempt + pre.length) rs).1,
         List.replicate pre.length g ++
           (exchangeAttempts g now (attempt + pre.length) rs).2) := by
  induction pre with
  | nil => intro g now attempt rs _ _; simp
  | cons r pre ih =>
    intro g now attempt rs hall hlen
    have hr : isRetryableFailure r = true := hall r (by simp)
    match r with
    | .success d => simp [isRetryableFailure] at hr
    | .failure s m =>
      have h404 : ¬ s = some 404 := by
        simp [isRetryableFailure] at hr
        exact hr
      have hat : attempt < 3 - 1 := by
        simp only [List.length_cons] at hlen
        omega
      rw [List.cons_append,
        exchangeAttempts_retry_step g now attempt s m (pre ++ rs) h404 hat,
        ih g now (attempt + 1) rs
          (fun x hx => hall x (List.mem_cons_of_mem _ hx))
          (by simp only [List.length_cons] at hlen; omega)]
      have e1 : attempt + 1 + pre.length = attempt + (pre.length + 1) := by
        omega
      rw [e1]
      simp only [List.length_cons, List.replicate_succ, List.cons_append]

/-- Helper: with local mode off, no valid held session token, and a truthy
long-lived credential, `ensureAuthenticated` runs the exchange loop from
attempt 0. -/
theorem ensureAuthenticated_runs_loop (st : ClientState) (now : Int)
    (rs : List ExchangeOutcome) (g : String)
    (hlocal : st.localMode = false)
    (hheld : ¬ (strTruthy st.token = true ∧
      now < st.tokenExpiresAt - 5 * 60 * 1000))
    (hgh : st.githubToken = some g) (hg : g ≠ "") :
    ensureAuthenticated st now rs =
      match (exchangeAttempts g now 0 rs).1 with
      | .ok (tok, exp) =>
        ⟨.ok { st with token := some tok, tokenExpiresAt := exp },
         (exchangeAttempts g now 0 rs).2,
         if st.hasAuthStore then [(tok, exp)] else []⟩
      | .error e => ⟨.error e, (exchangeAttempts g now 0 rs).2, []⟩ := by
  unfold ensureAuthenticated
  rw [if_neg (by simp [hlocal]), if_neg hheld,
    if_neg (by simp [hgh, strTruthy, hg])]
  simp [hgh]

/-- Helper: the credential trace of `ensureAuthenticated` is either empty
(no exchange needed or possible) or the trace of the exchange loop. -/
theorem ensureAuthenticated_calls_cases (st : ClientState) (now : Int)
    (rs : List ExchangeOutcome) :
    (ensureAuthenticated st now rs).exchangeCalls = [] ∨
    (ensureAuthenticated st now rs).exchangeCalls =
      (exchangeAttempts (st.githubToken.getD "") now 0 rs).2 := by
  unfold ensureAuthenticated
  by_cases h1 : st.localMode
  · left; simp [h1]
  · by_cases h2 : strTruthy st.token = true ∧
        now < st.tokenExpiresAt - 5 * 60 * 1000
    · left
      rw [if_neg (by simp [h1]), if_pos h2]
    · by_cases h3 : strTruthy st.githubToken
      · right
        rw [if_neg (by simp [h1]), if_neg h2, if_neg (by simp [h3])]
        simp only []
        split <;> rfl
      · left
        rw [if_neg (by simp [h1]), if_neg h2, if_pos (by simp [h3])]

/-- C2: the session exchange is attempted at most 3 times; a 404 response
(after any retryable failures within the budget) terminates immediately
with the distinct no-subscription error, making no further calls; every
call carries the same long-lived credential; and three retryable failures
exhaust the budget, raising the generic exchange error wrapping the last
failure message. -/
theorem ensureAuthenticated_retry_spec :
    (∀ (st : ClientState) (now : Int) (rs : List ExchangeOutcome),
      (ensureAuthenticated st now rs).exchangeCalls.length ≤ 3) ∧
    (∀ (st : ClientState) (now : Int) (g m : String)
      (pre rest : List ExchangeOutcome),
      st.localMode = false →
      ¬ (strTruthy st.token = true ∧ now < st.tokenExpiresAt - 5 * 60 * 1000) →
      st.githubToken = some g → g ≠ "" →
      (∀ r ∈ pre, isRetryableFailure r = true) → pre.length ≤ 2 →
      ensureAuthenticated st now
          (pre ++ .failure (some 404) m :: rest) =
        ⟨.error .noSubscription, List.replicate (pre.length + 1) g, []⟩) ∧
    (∀ (st : ClientState) (now : Int) (g : String)
      (s1 s2 s3 : Option Nat) (m1 m2 m3 : String)
      (rest : List ExchangeOutcome),
      st.localMode = false →
      ¬ (strTruthy st.token = true ∧ now < st.tokenExpiresAt - 5 * 60 * 1000) →
      st.githubToken = some g → g ≠ "" →
      s1 ≠ some 404 → s2 ≠ some 404 → s3 ≠ some 404 →
      ensureAuthenticated st now
          (.failure s1 m1 :: .failure s2 m2 :: .failure s3 m3 :: rest) =
        ⟨.error (.exchangeFailed m3), [g, g, g], []⟩) := by
  refine ⟨?_, ?_, ?_⟩
  · intro st now rs
    rcases ensureAuthenticated_calls_cases st now rs with h | h
    · simp [h]
    · rw [h]
      have hle := exchangeAttempts_calls_le rs (st.githubToken.getD "") now 0
        (by omega)
      omega
  · intro st now g m pre rest hlocal hheld hgh hg hall hlen
    rw [ensureAuthenticated_runs_loop st now _ g hlocal hheld hgh hg,
      exchangeAttempts_skip pre g now 0 _ hall (by omega)]
    have hstep : exchangeAttempts g now (0 + pre.length)
        (ExchangeOutcome.failure (some 404) m :: rest) =
        (.error .noSubscription, [g]) := by
      simp [exchangeAttempts]
    rw [hstep]
    simp [List.replicate_succ']
  · intro st now g s1 s2 s3 m1 m2 m3 rest hlocal hheld hgh hg h1 h2 h3
    rw [ensureAuthenticated_runs_loop st now _ g hlocal hheld hgh hg]
    have hstep : exchangeAttempts g now 0
        (ExchangeOutcome.failure s1 m1 :: ExchangeOutcome.failure s2 m2 ::
          ExchangeOutcome.failure s3 m3 :: rest) =
        (.error (.exchangeFailed m3), [g, g, g]) := by
      rw [exchangeAttempts_retry_step g now 0 s1 m1 _ h1 (by omega),
        exchangeAttempts_retry_step g now 1 s2 m2 _ h2 (by omega),
        exchangeAttempts_last_step g now s3 m3 _ h3]
    rw [hstep]

/-- C2 witness: a 500 failure then a 404 terminates with the subscription
error after two calls; three transient failures raise the generic error
wrapping the last message; and the call count is bounded on that script. -/
theorem ensureAuthenticated_retry_spec_witness :
    ensureAuthenticated ⟨false, none, 0, some "gh", true⟩ 50
        ([.failure (some 500) "boom"] ++ .failure (some 404) "gone" :: []) =
      ⟨.error .noSubscription, List.replicate 2 "gh", []⟩ ∧
    ensureAuthenticated ⟨false, none, 0, some "gh", true⟩ 50
        (.failure (some 500) "a" :: .failure none "b" ::
          .failure (some 503) "c" :: []) =
      ⟨.error (.exchangeFailed "c"), ["gh", "gh", "gh"], []⟩ ∧
    (ensureAuthenticated ⟨false, none, 0, some "gh", true⟩ 50
        (.failure (some 500) "a" :: .failure none "b" ::
          .failure (some 503) "c" :: [])).exchangeCalls.length ≤ 3 :=
  ⟨ensureAuthenticated_retry_spec.2.1 ⟨false, none, 0, some "gh", true⟩ 50
      "gh" "gone" [.failure (some 500) "boom"] [] rfl (by simp [strTruthy])
      rfl (by decide) (by decide) (by decide),
   ensureAuthenticated_retry_spec.2.2 ⟨false, none, 0, some "gh", true⟩ 50
      "gh" (some 500) none (some 503) "a" "b" "c" [] rfl (by simp [strTruthy])
      rfl (by decide) (by decide) (by decide) (by decide),
   ensureAuthenticated_retry_spec.1 ⟨false, none, 0, some "gh", true⟩ 50 _⟩

/-- C7: on a successful exchange the client stores expiry
`now + refresh_in * 1000` when a (positive) `refresh_in` is present, else
`expires_at * 1000` when a (positive) `expires_at` is present, else
`now + 30` minutes, and persists the session with exactly that expiry. -/
theorem ensureAuthenticated_expiry_spec :
    ∀ (st : ClientState) (now : Int) (d : TokenExchangeData)
      (rest : List ExchangeOutcome) (g : String),
      st.localMode = false →
      ¬ (strTruthy st.token = true ∧ now < st.tokenExpiresAt - 5 * 60 * 1000) →
      st.githubToken = some g → g ≠ "" → st.hasAuthStore = true →
      (ensureAuthenticated st now (.success d :: rest)).outcome =
        .ok { st with token := some d.token,
                      tokenExpiresAt := computeExpiry now d } ∧
      (ensureAuthenticated st now (.success d :: rest)).savedSessions =
        [(d.token, computeExpiry now d)] ∧
      (∀ ri : Int, d.refresh_in = some ri → 0 < ri →
        computeExpiry now d = now + ri * 1000) ∧
      (d.refresh_in = none → ∀ ea : Int, d.expires_at = some ea → 0 < ea →
        computeExpiry now d = ea * 1000) ∧
      (d.refresh_in = none → d.expires_at = none →
        computeExpiry now d = now + 30 * 60 * 1000) := by
  intro st now d rest g hlocal hheld hgh hg hstore
  rw [ensureAuthenticated_runs_loop st now _ g hlocal hheld hgh hg]
  have hstep : exchangeAttempts g now 0 (ExchangeOutcome.success d :: rest) =
      (.ok (d.token, computeExpiry now d), [g]) := by
    simp [exchangeAttempts]
  rw [hstep]
  refine ⟨rfl, by simp [hstore], ?_, ?_, ?_⟩
  · intro ri hri hpos
    have hne : ri ≠ 0 := by omega
    unfold computeExpiry
    rw [hri, if_pos (by simp [intTruthy, hne])]
    simp
  · intro hnone ea hea hpos
    have hne : ea ≠ 0 := by omega
    unfold computeExpiry
    rw [hnone, hea, if_neg (by simp [intTruthy]),
      if_pos (by simp [intTruthy, hne])]
    simp
  · intro hnone1 hnone2
    unfold computeExpiry
    rw [hnone1, hnone2]
    simp [intTruthy]

/-- C7 witness: a success with `refresh_in = 1800`, one with only
`expires_at = 99`, and one with neither field, from a fresh client. -/
theorem ensureAuthenticated_expiry_spec_witness :
    (ensureAuthenticated ⟨false, none, 0, some "gh", true⟩ 50
        [.success ⟨"s", some 1800, none⟩]).savedSessions =
      [("s", computeExpiry 50 ⟨"s", some 1800, none⟩)] ∧
    computeExpiry 50 ⟨"s", some 1800, none⟩ = 50 + 1800 * 1000 ∧
    computeExpiry 50 ⟨"s", none, some 99⟩ = 99 * 1000 ∧
    computeExpiry 50 ⟨"s", none, none⟩ = 50 + 30 * 60 * 1000 := by
  have h := ensureAuthenticated_expiry_spec ⟨false, none, 0, some "gh", true⟩
    50 ⟨"s", some 1800, none⟩ [] "gh" rfl (by simp [strTruthy]) rfl
    (by decide) rfl
  have h2 := ensureAuthenticated_expiry_spec ⟨false, none, 0, some "gh", true⟩
    50 ⟨"s", none, some 99⟩ [] "gh" rfl (by simp [strTruthy]) rfl
    (by decide) rfl
  have h3 := ensureAuthenticated_expiry_spec ⟨false, none, 0, some "gh", true⟩
    50 ⟨"s", none, none⟩ [] "gh" rfl (by simp [strTruthy]) rfl
    (by decide) rfl
  exact ⟨h.2.1, h.2.2.1 1800 rfl (by norm_num),
    h2.2.2.2.1 rfl 99 rfl (by norm_num), h3.2.2.2.2 rfl rfl⟩

/-- A job observed in `watching` state that has not yet written a
heartbeat: the poll loop keeps waiting on it. -/
def watchingNoHb : JobRecord := ⟨.watching, none, none, none⟩

/-- Helper: past the 300 s wall-clock budget the loop raises the timeout
regardless of the remaining observations. -/
theorem pollSteps_timeout (start : Int) (i : Nat)
    (obs : List (Option JobRecord)) (h : (i : Int) * 1000 > 300000) :
    pollSteps start i obs = .timeout := by
  cases obs with
  | nil => simp [pollSteps, h]
  | cons j rest => simp [pollSteps, h]

/-- Helper: heartbeat-less watching observations within the wall-clock
budget are consumed one per second without terminating the loop. -/
theorem pollSteps_watchingPrefix (k : Nat) :
    ∀ (start : Int) (i : Nat) (rest : List (Option JobRecord)),
      i + k ≤ 300 →
      pollSteps start i (List.replicate k (some watchingNoHb) ++ rest) =
        pollSteps start (i + k) rest := by
  induction k with
  | zero => intro start i rest _; simp
  | succ k ih =>
    intro start i rest h
    rw [List.replicate_succ, List.cons_append]
    have hstep : pollSteps start i
        (some watchingNoHb :: (List.replicate k (some watchingNoHb) ++ rest)) =
        pollSteps start (i + 1)
          (List.replicate k (some watchingNoHb) ++ rest) := by
      rw [pollSteps]
      rw [if_neg (by omega)]
      simp [watchingNoHb]
    rw [hstep, ih start (i + 1) rest (by omega)]
    congr 1
    omega

/-- C6: the 1-second poll loop returns the stored response text on the
first observation of `completed` with a present response; raises with the
stored description on `error`; raises on a missing job file; raises the
distinct watcher-dead outcome when a `watching` job's heartbeat is more
than 30 s old, without waiting for the overall timeout; and raises the
timeout once more than 300 s of iterations have elapsed. -/
theorem pollForCompletion_spec :
    (∀ (start : Int) (k : Nat) (r : String) (job : JobRecord)
      (rest : List (Option JobRecord)), k ≤ 300 →
      job.status = .completed → job.response = some r →
      pollForCompletion start
          (List.replicate k (some watchingNoHb) ++ some job :: rest) =
        .completedWith r) ∧
    (∀ (start : Int) (job : JobRecord) (d : String)
      (rest : List (Option JobRecord)),
      job.status = .jobError → job.error = some d → d ≠ "" →
      pollForCompletion start (some job :: rest) = .jobFailed d) ∧
    (∀ (start : Int) (rest : List (Option JobRecord)),
      pollForCompletion start (none :: rest) = .disappeared) ∧
    (∀ (start hb : Int) (job : JobRecord) (rest : List (Option JobRecord)),
      job.status = .watching → job.lastHeartbeat = some hb →
      start - hb > 30000 →
      pollForCompletion start (some job :: rest) = .watcherDead) ∧
    (∀ (start : Int) (rest : List (Option JobRecord)),
      pollForCompletion start
          (List.replicate 301 (some watchingNoHb) ++ rest) = .timeout) := by
  refine ⟨?_, ?_, ?_, ?_, ?_⟩
  · intro start k r job rest hk hst hresp
    unfold pollForCompletion
    rw [pollSteps_watchingPrefix k start 0 _ (by omega)]
    rw [pollSteps]
    rw [if_neg (by push_cast; omega)]
    simp [hst, hresp]
  · intro start job d rest hst herr hne
    unfold pollForCompletion
    rw [pollSteps]
    rw [if_neg (by norm_num)]
    have hnc : ¬ (job.status = JobStatus.completed ∧ job.response.isSome) := by
      simp [hst]
    simp only [hnc, if_false, hst, if_true, if_neg]
    simp [jobErrorMsg, herr, hne]
  · intro start rest
    unfold pollForCompletion
    rw [pollSteps]
    rw [if_neg (by norm_num)]
  · intro start hb job rest hst hhb hage
    unfold pollForCompletion
    rw [pollSteps]
    rw [if_neg (by norm_num)]
    rw [hst, hhb]
    simp [hage]
  · intro start rest
    unfold pollForCompletion
    have h301 : List.replicate 301 (some watchingNoHb) =
        List.replicate 300 (some watchingNoHb) ++
          List.replicate 1 (some watchingNoHb) := by
      rw [← List.replicate_add]
    rw [h301, List.append_assoc,
      pollSteps_watchingPrefix 300 start 0 _ (by omega)]
    have hstep : pollSteps start (0 + 300)
        (List.replicate 1 (some watchingNoHb) ++ rest) =
        pollSteps start 301 rest := by
      show pollSteps start 300 (some watchingNoHb :: rest) = _
      rw [pollSteps]
      have hne : ¬ (((300 : Nat) : Int) * 1000 > 300000) := by norm_num
      rw [if_neg hne]
      simp [watchingNoHb]
    rw [hstep, pollSteps_timeout start 301 rest (by norm_num)]

/-- C6 witness: concrete poll traces for each terminal outcome, including
a heartbeat exactly 31 s stale. -/
theorem pollForCompletion_spec_witness :
    pollForCompletion 0 (List.replicate 3 (some watchingNoHb) ++
        some ⟨.completed, some "the answer", none, none⟩ :: []) =
      .completedWith "the answer" ∧
    pollForCompletion 0 (some ⟨.jobError, none, some "boom", none⟩ :: []) =
      .jobFailed "boom" ∧
    pollForCompletion 0 (none :: []) = .disappeared ∧
    pollForCompletion 1000000 (some ⟨.watching, none, none, some 969000⟩ ::
        []) = .watcherDead ∧
    pollForCompletion 0 (List.replicate 301 (some watchingNoHb) ++ []) =
      .timeout :=
  ⟨pollForCompletion_spec.1 0 3 "the answer"
      ⟨.completed, some "the answer", none, none⟩ [] (by norm_num) rfl rfl,
   pollForCompletion_spec.2.1 0 ⟨.jobError, none, some "boom", none⟩ "boom"
      [] rfl rfl (by decide),
   pollForCompletion_spec.2.2.1 0 [],
   pollForCompletion_spec.2.2.2.1 1000000 969000
      ⟨.watching, none, none, some 969000⟩ [] rfl rfl (by norm_num),
   pollForCompletion_spec.2.2.2.2 0 []⟩

/-- Helper: the remainder left by newline splitting contains no newline. -/
theorem splitLines_rest_no_newline (s : List Char) :
    '\n' ∉ (splitLines s).2 := by
  induction s with
  | nil => simp [splitLines]
  | cons c cs ih =>
    show '\n' ∉ (splitStep c (splitLines cs)).2
    by_cases hc : c = '\n'
    · simpa [splitStep, hc] using ih
    · unfold splitStep
      rw [if_neg hc]
      rcases h1 : (splitLines cs).1 with _ | ⟨l, t⟩
      · simp only []
        intro hmem
        rcases List.mem_cons.mp hmem with h | h
        · exact hc h.symm
        · exact ih h
      · simpa using ih

/-- Helper: a newline-free text splits to no complete line and itself as
remainder. -/
theorem splitLines_no_newline (s : List Char) (h : '\n' ∉ s) :
    splitLines s = ([], s) := by
  induction s with
  | nil => rfl
  | cons c cs ih =>
    have hc : c ≠ '\n' := fun hh => h (by simp [hh])
    have hcs : '\n' ∉ cs := fun hh => h (by simp [hh])
    show splitStep c (splitLines cs) = ([], c :: cs)
    rw [ih hcs]
    unfold splitStep
    rw [if_neg hc]

/-- Helper: evaluation of the split step on a newline. -/
theorem splitStep_newline (p : List (List Char) × List Char) :
    splitStep '\n' p = ([] :: p.1, p.2) := by
  unfold splitStep
  rw [if_pos rfl]

/-- Helper: evaluation of the split step on a non-newline character with no
complete line yet. -/
theorem splitStep_nil_lines (c : Char) (hc : ¬ c = '\n')
    (p : List (List Char) × List Char) (h : p.1 = []) :
    splitStep c p = ([], c :: p.2) := by
  unfold splitStep
  rw [if_neg hc, h]

/-- Helper: evaluation of the split step on a non-newline character with a
first complete line present. -/
theorem splitStep_cons_lines (c : Char) (hc : ¬ c = '\n') (l : List Char)
    (t : List (List Char)) (p : List (List Char) × List Char)
    (h : p.1 = l :: t) :
    splitStep c p = ((c :: l) :: t, p.2) := by
  unfold splitStep
  rw [if_neg hc, h]

/-- Helper: folding the split step over a prefix distributes, the prefix
remainder being re-fed in front of the continuation. -/
theorem foldr_splitStep_eq (a : List Char) :
    ∀ q : List (List Char) × List Char,
      a.foldr splitStep q =
        ((splitLines a).1 ++ ((splitLines a).2.foldr splitStep q).1,
         ((splitLines a).2.foldr splitStep q).2) := by
  induction a with
  | nil => intro q; simp [splitLines]
  | cons c a ih =>
    intro q
    show splitStep c (a.foldr splitStep q) = _
    by_cases hc : c = '\n'
    · subst hc
      have hR : splitLines ('\n' :: a) =
          ([] :: (splitLines a).1, (splitLines a).2) :=
        splitStep_newline (splitLines a)
      rw [ih q, splitStep_newline, hR]
      simp
    · rcases h1 : (splitLines a).1 with _ | ⟨l, t⟩
      · have hL : splitStep c (a.foldr splitStep q) =
            splitStep c ((splitLines a).2.foldr splitStep q) := by
          rw [ih q, h1]
          congr 1
        have hR : splitLines (c :: a) = ([], c :: (splitLines a).2) :=
          splitStep_nil_lines c hc (splitLines a) h1
        rw [hL, hR]
        simp
      · have hR : splitLines (c :: a) = ((c :: l) :: t, (splitLines a).2) :=
          splitStep_cons_lines c hc l t (splitLines a) h1
        rw [ih q, h1, hR, List.cons_append,
          splitStep_cons_lines c hc l
            (t ++ ((splitLines a).2.foldr splitStep q).1) _ rfl]
        simp

/-- Helper: splitting a concatenation is splitting the first part, then
splitting its remainder joined to the second part. -/
theorem splitLines_append (a s : List Char) :
    splitLines (a ++ s) =
      ((splitLines a).1 ++ (splitLines ((splitLines a).2 ++ s)).1,
       (splitLines ((splitLines a).2 ++ s)).2) := by
  unfold splitLines
  rw [List.foldr_append, foldr_splitStep_eq a (s.foldr splitStep ([], [])),
    ← List.foldr_append]
  rfl

/-- Helper: processing a concatenation whose first part hits no `[DONE]`
line processes both parts in order. -/
theorem processList_append_noDone (l1 : List (List Char)) :
    ∀ l2 : List (List Char), (processList l1).2 = false →
      processList (l1 ++ l2) =
        ((processList l1).1 ++ (processList l2).1, (processList l2).2) := by
  induction l1 with
  | nil => intro l2 _; simp [processList]
  | cons l ls ih =>
    intro l2 hflag
    rcases hpl : processLine l with _ | c | _
    · rw [processList, hpl] at hflag
      simp at hflag
    · rw [List.cons_append, processList, hpl]
      rw [processList, hpl] at hflag ⊢
      simp only [] at hflag ⊢
      rw [ih l2 hflag]
      simp
    · rw [List.cons_append, processList, hpl]
      rw [processList, hpl] at hflag ⊢
      exact ih l2 hflag

/-- Helper: processing a concatenation whose first part hits a `[DONE]`
line stops inside the first part, the second part never being reached. -/
theorem processList_append_done (l1 : List (List Char)) :
    ∀ l2 : List (List Char), (processList l1).2 = true →
      processList (l1 ++ l2) = processList l1 := by
  induction l1 with
  | nil => intro l2 hflag; simp [processList] at hflag
  | cons l ls ih =>
    intro l2 hflag
    rcases hpl : processLine l with _ | c | _
    · rw [List.cons_append, processList, hpl, processList, hpl]
    · rw [processList, hpl] at hflag
      simp only [] at hflag
      rw [List.cons_append, processList, hpl, processList, hpl,
        ih l2 hflag]
    · rw [processList, hpl] at hflag
      rw [List.cons_append, processList, hpl, processList, hpl,
        ih l2 hflag]

/-- Helper: a line list with no fragment-producing line yields no
fragments. -/
theorem processList_inert (L : List (List Char))
    (h : ∀ x ∈ L, fragLine x = false) : (processList L).1 = [] := by
  induction L with
  | nil => rfl
  | cons l ls ih =>
    rcases hpl : processLine l with _ | c | _
    · rw [processList, hpl]
    · have := h l (by simp)
      rw [fragLine, hpl] at this
      simp at this
    · rw [processList, hpl]
      exact ih fun x hx => h x (by simp [hx])

/-- Helper: a line list with no fragment-producing line is conformant. -/
theorem okLines_of_inert (L : List (List Char))
    (h : ∀ x ∈ L, fragLine x = false) : okLines L = true := by
  induction L with
  | nil => rfl
  | cons l ls ih =>
    rw [okLines]
    by_cases hpl : processLine l = LineResult.done
    · rw [if_pos hpl]
      rw [List.all_eq_true]
      intro x hx
      simp [h x (by simp [hx])]
    · rw [if_neg hpl]
      exact ih fun x hx => h x (by simp [hx])

/-- Helper: conformance restricts to a suffix. -/
theorem okLines_append_right (xs : List (List Char)) :
    ∀ ys : List (List Char), okLines (xs ++ ys) = true →
      okLines ys = true := by
  induction xs with
  | nil => intro ys h; simpa using h
  | cons x xs ih =>
    intro ys h
    rw [List.cons_append, okLines] at h
    by_cases hpl : processLine x = LineResult.done
    · rw [if_pos hpl, List.all_eq_true] at h
      exact okLines_of_inert ys fun y hy => by
        simpa using h y (List.mem_append_right xs hy)
    · rw [if_neg hpl] at h
      exact ih ys h

/-- Helper: once the first part of a conformant concatenation hits a
`[DONE]` line, the whole second part is fragment-free. -/
theorem okLines_done_inert (l1 : List (List Char)) :
    ∀ l2 : List (List Char), okLines (l1 ++ l2) = true →
      (processList l1).2 = true → ∀ x ∈ l2, fragLine x = false := by
  induction l1 with
  | nil => intro l2 _ hflag; simp [processList] at hflag
  | cons l ls ih =>
    intro l2 hok hflag
    rw [List.cons_append, okLines] at hok
    by_cases hpl : processLine l = LineResult.done
    · rw [if_pos hpl, List.all_eq_true] at hok
      intro x hx
      simpa using hok x (List.mem_append_right ls hx)
    · rw [if_neg hpl] at hok
      rcases hpl2 : processLine l with _ | c | _
      · exact absurd hpl2 hpl
      · rw [processList, hpl2] at hflag
        simp only [] at hflag
        exact ih l2 hok hflag
      · rw [processList, hpl2] at hflag
        exact ih l2 hok hflag

/-- Helper: the fragments of a chunked run are the fragments of the
complete lines of the whole remaining text, for any conformant stream and
any newline-free carried-over buffer. -/
theorem chatStream_fold (chunks : List (List Char)) :
    ∀ (b : List Char) (fs : List (List Char)),
      '\n' ∉ b →
      okLines (splitLines (b ++ chunks.flatten)).1 = true →
      (chunks.foldl handleChunk ⟨b, fs⟩).frags =
        fs ++ (processList (splitLines (b ++ chunks.flatten)).1).1 := by
  induction chunks with
  | nil =>
    intro b fs hb _
    simp only [List.flatten_nil, List.append_nil, List.foldl_nil]
    rw [splitLines_no_newline b hb]
    simp [processList]
  | cons c rest ih =>
    intro b fs hb hok
    have hjoin : b ++ (c :: rest).flatten = (b ++ c) ++ rest.flatten := by
      rw [List.flatten_cons, List.append_assoc]
    rw [hjoin, splitLines_append (b ++ c) rest.flatten] at hok
    simp only [] at hok
    have hok2 : okLines
        (splitLines ((splitLines (b ++ c)).2 ++ rest.flatten)).1 = true :=
      okLines_append_right _ _ hok
    rw [List.foldl_cons]
    have hhc : handleChunk ⟨b, fs⟩ c =
        ⟨(splitLines (b ++ c)).2,
         fs ++ (processList (splitLines (b ++ c)).1).1⟩ := rfl
    rw [hhc, ih _ _ (splitLines_rest_no_newline (b ++ c)) hok2]
    rw [hjoin, splitLines_append (b ++ c) rest.flatten]
    simp only []
    cases hflag : (processList (splitLines (b ++ c)).1).2 with
    | true =>
      rw [processList_append_done _ _ hflag,
        processList_inert _ (okLines_done_inert _ _ hok hflag)]
      simp
    | false =>
      rw [processList_append_noDone _ _ hflag]
      simp only []
      rw [List.append_assoc]

/-- Helper: at the character level, feeding a conformant event stream
split at arbitrary positions delivers the same ordered fragment sequence
as feeding it whole (conformance: no fragment-producing line after the
terminal `data: [DONE]` line, which is where the stream ends); and a
`data: ` line whose payload fails to parse produces no fragment and
leaves the processing of every other line unchanged. -/
theorem chatStream_char_invariance :
    (∀ chunks : List (List Char),
      okLines (splitLines chunks.flatten).1 = true →
      chatStream chunks = chatStream [chunks.flatten]) ∧
    (∀ (pre post : List (List Char)) (payload : List Char),
      jsonParse payload = none → payload ≠ "[DONE]".toList →
      processLine (dataLine payload) = .skip ∧
      processList (pre ++ dataLine payload :: post) =
        processList (pre ++ post)) := by
  constructor
  · intro chunks hok
    unfold chatStream
    have hj : ([chunks.flatten] : List (List Char)).flatten = chunks.flatten := by
      simp
    rw [chatStream_fold chunks [] [] (by simp) (by simpa using hok),
      chatStream_fold [chunks.flatten] [] [] (by simp) (by simpa [hj] using hok)]
    simp [hj]
  · intro pre post payload hparse hdone
    have hskip : processLine (dataLine payload) = .skip := by
      unfold dataLine
      simp only [processLine]
      rw [if_neg hdone, hparse]
    refine ⟨hskip, ?_⟩
    induction pre with
    | nil =>
      rw [List.nil_append, List.nil_append, processList, hskip]
    | cons l ls ih =>
      rcases hpl : processLine l with _ | cc | _
      · rw [List.cons_append, processList, hpl, List.cons_append,
          processList, hpl]
      · rw [List.cons_append, processList, hpl, List.cons_append,
          processList, hpl, ih]
      · rw [List.cons_append, processList, hpl, List.cons_append,
          processList, hpl, ih]

/-- Helper: evaluation of the decoder ground state on one byte. -/
theorem utf8DecodeLoop_ground (b : Nat) (rest : List Nat) :
    utf8DecodeLoop utf8Init (b :: rest) =
      (utf8Start b).1 ++ utf8DecodeLoop (utf8Start b).2 rest := by
  rw [utf8DecodeLoop]
  simp [utf8Init]

/-- Helper: evaluation of the ground step on an ASCII byte. -/
theorem utf8Start_ascii (b : Nat) (h : b ≤ 0x7F) :
    utf8Start b = ([Char.ofNat b], utf8Init) := by
  unfold utf8Start
  rw [if_pos h]

/-- Helper: evaluation of the ground step on a two-byte lead. -/
theorem utf8Start_two (b : Nat) (h1 : 0xC2 ≤ b) (h2 : b ≤ 0xDF) :
    utf8Start b = ([], ⟨1, 0, b % 0x20, 0x80, 0xBF⟩) := by
  unfold utf8Start
  rw [if_neg (by omega), if_pos ⟨h1, h2⟩]

/-- Helper: evaluation of the ground step on a three-byte lead. -/
theorem utf8Start_three (b : Nat) (h1 : 0xE0 ≤ b) (h2 : b ≤ 0xEF) :
    utf8Start b = ([], ⟨2, 0, b % 0x10, if b = 0xE0 then 0xA0 else 0x80,
      if b = 0xED then 0x9F else 0xBF⟩) := by
  unfold utf8Start
  rw [if_neg (by omega), if_neg (by omega), if_pos ⟨h1, h2⟩]

/-- Helper: evaluation of the ground step on a four-byte lead. -/
theorem utf8Start_four (b : Nat) (h1 : 0xF0 ≤ b) (h2 : b ≤ 0xF4) :
    utf8Start b = ([], ⟨3, 0, b % 0x8, if b = 0xF0 then 0x90 else 0x80,
      if b = 0xF4 then 0x8F else 0xBF⟩) := by
  unfold utf8Start
  rw [if_neg (by omega), if_neg (by omega), if_neg (by omega),
    if_pos ⟨h1, h2⟩]

/-- Helper: the decoder on an ASCII byte in the ground state. -/
theorem utf8DecodeLoop_ground_ascii (b : Nat) (rest : List Nat)
    (h : b ≤ 0x7F) :
    utf8DecodeLoop utf8Init (b :: rest) =
      Char.ofNat b :: utf8DecodeLoop utf8Init rest := by
  rw [utf8DecodeLoop_ground, utf8Start_ascii b h]
  rfl

/-- Helper: the decoder on a two-byte lead in the ground state. -/
theorem utf8DecodeLoop_ground_two (b : Nat) (rest : List Nat)
    (h1 : 0xC2 ≤ b) (h2 : b ≤ 0xDF) :
    utf8DecodeLoop utf8Init (b :: rest) =
      utf8DecodeLoop ⟨1, 0, b % 0x20, 0x80, 0xBF⟩ rest := by
  rw [utf8DecodeLoop_ground, utf8Start_two b h1 h2]
  rfl

/-- Helper: the decoder on a three-byte lead in the ground state. -/
theorem utf8DecodeLoop_ground_three (b : Nat) (rest : List Nat)
    (h1 : 0xE0 ≤ b) (h2 : b ≤ 0xEF) :
    utf8DecodeLoop utf8Init (b :: rest) =
      utf8DecodeLoop ⟨2, 0, b % 0x10, if b = 0xE0 then 0xA0 else 0x80,
        if b = 0xED then 0x9F else 0xBF⟩ rest := by
  rw [utf8DecodeLoop_ground, utf8Start_three b h1 h2]
  rfl

/-- Helper: the decoder on a four-byte lead in the ground state. -/
theorem utf8DecodeLoop_ground_four (b : Nat) (rest : List Nat)
    (h1 : 0xF0 ≤ b) (h2 : b ≤ 0xF4) :
    utf8DecodeLoop utf8Init (b :: rest) =
      utf8DecodeLoop ⟨3, 0, b % 0x8, if b = 0xF0 then 0x90 else 0x80,
        if b = 0xF4 then 0x8F else 0xBF⟩ rest := by
  rw [utf8DecodeLoop_ground, utf8Start_four b h1 h2]
  rfl

/-- Helper: the decoder on an in-range continuation byte. -/
theorem utf8DecodeLoop_cont (n s cp0 lo hi b : Nat) (rest : List Nat)
    (hn : ¬ n = 0) (hlo : lo ≤ b) (hhi : b ≤ hi) :
    utf8DecodeLoop ⟨n, s, cp0, lo, hi⟩ (b :: rest) =
      if s + 1 = n then
        Char.ofNat (cp0 * 64 + b % 64) :: utf8DecodeLoop utf8Init rest
      else
        utf8DecodeLoop ⟨n, s + 1, cp0 * 64 + b % 64, 0x80, 0xBF⟩ rest := by
  rw [utf8DecodeLoop]
  rw [if_neg hn, if_pos ⟨hlo, hhi⟩]

/-- Helper: the decoder on the final continuation byte of a sequence. -/
theorem utf8DecodeLoop_cont_emit (n s cp0 lo hi b : Nat) (rest : List Nat)
    (hn : ¬ n = 0) (hlo : lo ≤ b) (hhi : b ≤ hi) (hfin : s + 1 = n) :
    utf8DecodeLoop ⟨n, s, cp0, lo, hi⟩ (b :: rest) =
      Char.ofNat (cp0 * 64 + b % 64) :: utf8DecodeLoop utf8Init rest := by
  rw [utf8DecodeLoop_cont n s cp0 lo hi b rest hn hlo hhi, if_pos hfin]

/-- Helper: the decoder on a non-final continuation byte of a sequence. -/
theorem utf8DecodeLoop_cont_more (n s cp0 lo hi b : Nat) (rest : List Nat)
    (hn : ¬ n = 0) (hlo : lo ≤ b) (hhi : b ≤ hi) (hfin : ¬ s + 1 = n) :
    utf8DecodeLoop ⟨n, s, cp0, lo, hi⟩ (b :: rest) =
      utf8DecodeLoop ⟨n, s + 1, cp0 * 64 + b % 64, 0x80, 0xBF⟩ rest := by
  rw [utf8DecodeLoop_cont n s cp0 lo hi b rest hn hlo hhi, if_neg hfin]

/-- Helper: the decoder inverts the encoder on every Unicode scalar value:
the encoded bytes of a valid codepoint decode to exactly that character,
leaving the rest of the input to continue in the ground state. -/
theorem utf8DecodeLoop_encodeChar (cp : Nat) (h : Nat.isValidChar cp)
    (rest : List Nat) :
    utf8DecodeLoop utf8Init (utf8EncodeChar cp ++ rest) =
      Char.ofNat cp :: utf8DecodeLoop utf8Init rest := by
  have hval : cp < 0xD800 ∨ (0xDFFF < cp ∧ cp < 0x110000) := h
  by_cases h1 : cp < 0x80
  · rw [show utf8EncodeChar cp = [cp] from by
      unfold utf8EncodeChar; rw [if_pos h1]]
    show utf8DecodeLoop utf8Init (cp :: rest) = _
    rw [utf8DecodeLoop_ground_ascii cp rest (by omega)]
  · by_cases h2 : cp < 0x800
    · rw [show utf8EncodeChar cp = [0xC0 + cp / 64, 0x80 + cp % 64] from by
        unfold utf8EncodeChar; rw [if_neg h1, if_pos h2]]
      show utf8DecodeLoop utf8Init
        ((0xC0 + cp / 64) :: (0x80 + cp % 64) :: rest) = _
      rw [utf8DecodeLoop_ground_two _ _ (by omega) (by omega),
        utf8DecodeLoop_cont_emit 1 0 _ 0x80 0xBF _ rest (by norm_num)
          (by omega) (by omega) rfl]
      have hX : (0xC0 + cp / 64) % 0x20 * 64 + (0x80 + cp % 64) % 64 = cp := by
        omega
      rw [hX]
    · by_cases h3 : cp < 0x10000
      · rw [show utf8EncodeChar cp =
            [0xE0 + cp / 4096, 0x80 + cp / 64 % 64, 0x80 + cp % 64] from by
          unfold utf8EncodeChar; rw [if_neg h1, if_neg h2, if_pos h3]]
        show utf8DecodeLoop utf8Init ((0xE0 + cp / 4096) ::
          (0x80 + cp / 64 % 64) :: (0x80 + cp % 64) :: rest) = _
        rw [utf8DecodeLoop_ground_three _ _ (by omega) (by omega),
          utf8DecodeLoop_cont_more 2 0 _ _ _ _ _ (by norm_num)
            (by split <;> omega) (by split <;> omega) (by norm_num),
          utf8DecodeLoop_cont_emit 2 1 _ 0x80 0xBF _ rest (by norm_num)
            (by omega) (by omega) rfl]
        have hX : ((0xE0 + cp / 4096) % 0x10 * 64 +
            (0x80 + cp / 64 % 64) % 64) * 64 + (0x80 + cp % 64) % 64 = cp := by
          omega
        rw [hX]
      · rw [show utf8EncodeChar cp = [0xF0 + cp / 0x40000,
            0x80 + cp / 4096 % 64, 0x80 + cp / 64 % 64, 0x80 + cp % 64] from by
          unfold utf8EncodeChar; rw [if_neg h1, if_neg h2, if_neg h3]]
        show utf8DecodeLoop utf8Init ((0xF0 + cp / 0x40000) ::
          (0x80 + cp / 4096 % 64) :: (0x80 + cp / 64 % 64) ::
          (0x80 + cp % 64) :: rest) = _
        rw [utf8DecodeLoop_ground_four _ _ (by omega) (by omega),
          utf8DecodeLoop_cont_more 3 0 _ _ _ _ _ (by norm_num)
            (by split <;> omega) (by split <;> omega) (by norm_num),
          utf8DecodeLoop_cont_more 3 1 _ 0x80 0xBF _ _ (by norm_num)
            (by omega) (by omega) (by norm_num),
          utf8DecodeLoop_cont_emit 3 2 _ 0x80 0xBF _ rest (by norm_num)
            (by omega) (by omega) rfl]
        have hX : (((0xF0 + cp / 0x40000) % 0x8 * 64 +
            (0x80 + cp / 4096 % 64) % 64) * 64 +
            (0x80 + cp / 64 % 64) % 64) * 64 + (0x80 + cp % 64) % 64 = cp := by
          omega
        rw [hX]

/-- Helper: decoding inverts encoding on whole character sequences. -/
theorem bufferToString_encode (s : List Char) :
    bufferToString (utf8Encode s) = s := by
  unfold bufferToString
  induction s with
  | nil => rfl
  | cons c s ih =>
    have he : utf8Encode (c :: s) = utf8EncodeChar c.toNat ++ utf8Encode s := by
      simp [utf8Encode]
    rw [he, utf8DecodeLoop_encodeChar c.toNat c.valid (utf8Encode s), ih,
      Char.ofNat_toNat]

/-- Helper: a byte-level run whose chunks are encodings of character
chunks is the character-level run on those chunks. -/
theorem foldl_handleChunkBytes_encode (chunks : List (List Char)) :
    ∀ st : SseState,
      (chunks.map utf8Encode).foldl handleChunkBytes st =
        chunks.foldl handleChunk st := by
  induction chunks with
  | nil => intro st; rfl
  | cons c rest ih =>
    intro st
    rw [List.map_cons, List.foldl_cons, List.foldl_cons]
    have hc : handleChunkBytes st (utf8Encode c) = handleChunk st c := by
      unfold handleChunkBytes
      rw [bufferToString_encode]
    rw [hc, ih]

/-- A concrete streaming response whose content fragment is the two-byte
character U+00E9, followed by the terminal sentinel line. -/
def accentStream : List Char :=
  ("data: \x7b\"choices\":[\x7b\"delta\":\x7b\"content\":\"é\"\x7d\x7d]\x7d\ndata: [DONE]\n").toList

/-- Its wire bytes; the two bytes of U+00E9 sit at indices 39 and 40. -/
def accentBytes : List Nat := utf8Encode accentStream

/-- C3 counterexample: the stream is conformant and the two chunkings
concatenate to the same bytes, yet splitting between the two bytes of the
U+00E9 character delivers the fragment as two replacement characters
where the unsplit run delivers the character itself — the fragment
sequences differ, refuting invariance under arbitrary byte-boundary
splits. -/
theorem chatStreamBytes_mid_codepoint_counterexample :
    okLines (splitLines (bufferToString accentBytes)).1 = true ∧
    accentBytes.take 40 ++ accentBytes.drop 40 = accentBytes ∧
    chatStreamBytes [accentBytes] = [[Char.ofNat 0xE9]] ∧
    chatStreamBytes [accentBytes.take 40, accentBytes.drop 40] =
      [[replacementChar, replacementChar]] ∧
    chatStreamBytes [accentBytes.take 40, accentBytes.drop 40] ≠
      chatStreamBytes [accentBytes] :=
  ⟨by decide, List.take_append_drop 40 accentBytes, by decide, by decide,
   by decide⟩

/-- C3 (amended): a byte split inside a multibyte UTF-8 character garbles
the decoded fragment (each truncated Buffer decodes its partial sequence
to U+FFFD), so the invariance holds for splits at character boundaries:
feeding the wire bytes of a conformant stream chunked at any character
boundaries yields the identical ordered fragment sequence as feeding them
whole (conformance: no fragment-producing line after the terminal
`data: [DONE]` line, which is where the stream ends); and a `data: ` line
whose payload fails to parse produces no fragment and leaves the
processing of every other line unchanged. -/
theorem chatStreamBytes_char_boundary_invariance :
    (∀ chunks : List (List Char),
      okLines (splitLines chunks.flatten).1 = true →
      chatStreamBytes (chunks.map utf8Encode) =
        chatStreamBytes [utf8Encode chunks.flatten]) ∧
    (∀ (pre post : List (List Char)) (payload : List Char),
      jsonParse payload = none → payload ≠ "[DONE]".toList →
      processLine (dataLine payload) = .skip ∧
      processList (pre ++ dataLine payload :: post) =
        processList (pre ++ post)) := by
  constructor
  · intro chunks hok
    unfold chatStreamBytes
    rw [foldl_handleChunkBytes_encode chunks _]
    have h2 : ([utf8Encode chunks.flatten] : List (List Nat)) =
        [chunks.flatten].map utf8Encode := by simp
    rw [h2, foldl_handleChunkBytes_encode [chunks.flatten] _]
    exact chatStream_char_invariance.1 chunks hok
  · exact chatStream_char_invariance.2

/-- A character-boundary chunking of a two-fragment stream, split
mid-JSON-object and mid-`data: ` prefix. -/
def witnessChunks : List (List Char) := [
  "data: \x7b\"choi".toList,
  "ces\":[\x7b\"delta\":\x7b\"content\":\"4\"\x7d\x7d]\x7d\nda".toList,
  "ta: \x7b\"choices\":[\x7b\"delta\":\x7b\"content\":\".\"\x7d\x7d]\x7d\ndata: [DONE]\n".toList]

/-- C3 witness: the byte encodings of the three character chunks yield the
same fragments as the whole encoded stream, and a concrete unparseable
payload is skipped without disturbing neighbouring lines. -/
theorem chatStreamBytes_char_boundary_invariance_witness :
    (okLines (splitLines witnessChunks.flatten).1 = true ∧
      chatStreamBytes (witnessChunks.map utf8Encode) =
        chatStreamBytes [utf8Encode witnessChunks.flatten]) ∧
    (jsonParse ("\x7bnot-json".toList) = none ∧
     "\x7bnot-json".toList ≠ "[DONE]".toList ∧
     processLine (dataLine ("\x7bnot-json".toList)) = .skip ∧
     processList ([[':', 'x']] ++
         dataLine ("\x7bnot-json".toList) :: [dataLine ("[DONE]".toList)]) =
       processList ([[':', 'x']] ++ [dataLine ("[DONE]".toList)])) := by
  refine ⟨⟨by decide,
    chatStreamBytes_char_boundary_invariance.1 witnessChunks (by decide)⟩, ?_⟩
  have h1 : jsonParse ("\x7bnot-json".toList) = none := by rfl
  have h2 : ("\x7bnot-json".toList) ≠ "[DONE]".toList := by decide
  obtain ⟨ha, hb⟩ := chatStreamBytes_char_boundary_invariance.2 [[':', 'x']]
    [dataLine ("[DONE]".toList)] ("\x7bnot-json".toList) h1 h2
  exact ⟨h1, h2, ha, hb⟩

end LibCopilot
